import Mathlib

/-!
# OpenMW: message boxes (`apps/openmw/mwgui/messagebox.hpp`) and start-up options (`apps/openmw/main.cpp`)

A shallow embedding of

* the `MWGui::MessageBoxManager` state of `messagebox.hpp`, its inline member
  `onButtonPressed`, and those members that the header only declares and that
  compute nothing in `float` (`createInteractiveMessageBox`,
  `isInteractiveMessageBox`, `clear`, `readPressedButton`, the constructor);
* `validate` and `parseOptions` of `main.cpp`.

Conventions.

* `std::string` is a list of characters, `std::vector` a list.
* `int` is a 32 bit two's complement integer and `std::size_t` a 64 bit unsigned
  integer; a value of either type is carried as an `Int` or a `Nat`, and the
  conversions between the two types are written out (`toInt`).
* A `float` is carried as its binary32 bit pattern. No arithmetic and no comparison
  of `float` values is defined: `onFrame` and `createMessageBox`, which add, multiply
  and compare durations, are not embedded.
* A call into a collaborator that is not part of the two files (the GUI toolkit,
  the engine, the configuration manager) is recorded in a list of calls.
-/

namespace MWGui

/-! ## Data model -/

/-- A subscriber of `eventButtonPressed`: one delegate of the multicast delegate
`MyGUI::delegates::CMultiDelegate1<int>`, named by a number. -/
abbrev Subscriber := Nat

/-- The multicast delegate type `EventHandle_Int`, `messagebox.hpp` line 40: the
delegates in the order in which they were added. -/
abbrev EventHandle_Int := List Subscriber

/-- The call operator of `CMultiDelegate1<int>`: every delegate of the list is
called, in order, with the argument. The result is the list of calls made. -/
def EventHandle_Int.fire (d : EventHandle_Int) (a : Int) : List (Subscriber × Int) :=
  match d with
  | [] => []
  | s :: rest => (s, a) :: EventHandle_Int.fire rest a

/-- The member `clear()` of `CMultiDelegate1<int>`: all delegates are dropped. -/
def EventHandle_Int.clear (_d : EventHandle_Int) : EventHandle_Int := []

/-- A C++ `float`: an IEEE 754 binary32 value, held as its 32 bit pattern. -/
structure CFloat where
  bits : Nat
  isFloat : bits < 2 ^ 32
  deriving DecidableEq, Repr

/-- The `float` value `1.0f`, bit pattern `0x3F800000`. -/
def CFloat.one : CFloat := ⟨0x3F800000, by decide⟩

/-- The class `MessageBox`, `messagebox.hpp` lines 55-72: the text and the two
public time fields. The widget members belong to the GUI toolkit. -/
structure MessageBox where
  mMessage : String
  mCurrentTime : CFloat
  mMaxTime : CFloat
  deriving DecidableEq, Repr

/-- The class `InteractiveMessageBox`, `messagebox.hpp` lines 74-94: text, button
labels, the pressed button (`-1` while none is pressed) and the deletion mark. -/
structure InteractiveMessageBox where
  mMessage : String
  mButtons : List String
  mButtonPressed : Int
  mMarkedToDelete : Bool
  deriving DecidableEq, Repr

/-- The class `MessageBoxManager`, `messagebox.hpp` lines 22-53. The pointer
`mStaticMessageBox` is either null or points at one element of `mMessageBoxes`;
it is held as the position of that element. -/
structure MessageBoxManager where
  eventButtonPressed : EventHandle_Int
  mMessageBoxes : List MessageBox
  mInterMessageBoxe : Option InteractiveMessageBox
  mStaticMessageBox : Option Nat
  mMessageBoxSpeed : CFloat
  mLastButtonPressed : Int
  deriving DecidableEq, Repr

/-! ## `onButtonPressed`, defined in the header -/

/-- The member `onButtonPressed`, `messagebox.hpp` line 45:
`{ eventButtonPressed(button); eventButtonPressed.clear(); }`.
Returns the calls made to subscribers and the manager afterwards. -/
def MessageBoxManager.onButtonPressed (m : MessageBoxManager) (button : Int) :
    List (Subscriber × Int) × MessageBoxManager :=
  let calls := m.eventButtonPressed.fire button
  (calls, { m with eventButtonPressed := m.eventButtonPressed.clear })

/-! ## Members declared in the header whose bodies are in `messagebox.cpp` -/

/-- Modelled from the spec: the constructor `MessageBoxManager (float timePerChar)`,
whose body is in `messagebox.cpp`. The manager starts with an empty queue, no
interactive box, the given time per character and `lastPressedButton` at the
sentinel `-1`. -/
def MessageBoxManager.new (timePerChar : CFloat) : MessageBoxManager :=
  { eventButtonPressed := []
    mMessageBoxes := []
    mInterMessageBoxe := none
    mStaticMessageBox := none
    mMessageBoxSpeed := timePerChar
    mLastButtonPressed := -1 }

/-- Modelled from the spec: `isInteractiveMessageBox()`, body in `messagebox.cpp`.
"Pure query, true iff an InteractiveMessage currently exists." -/
def MessageBoxManager.isInteractiveMessageBox (m : MessageBoxManager) : Bool :=
  m.mInterMessageBoxe.isSome

/-- Modelled from the spec: `readPressedButton()`, body in `messagebox.cpp`.
"Returns `lastPressedButton` and resets it to sentinel in the same call." -/
def MessageBoxManager.readPressedButton (m : MessageBoxManager) : Int × MessageBoxManager :=
  let pressed := m.mLastButtonPressed
  (pressed, { m with mLastButtonPressed := -1 })

/-- Modelled from the spec: `createInteractiveMessageBox(message, buttons)`, body in
`messagebox.cpp`. "Fails (returns false, no state change) if an InteractiveMessage
already exists. Otherwise constructs one and returns true. `buttons` must be
non-empty; ... reject and return false rather than create a buttonless modal." -/
def MessageBoxManager.createInteractiveMessageBox (m : MessageBoxManager)
    (message : String) (buttons : List String) : Bool × MessageBoxManager :=
  match m.mInterMessageBoxe with
  | some _ => (false, m)
  | none =>
    match buttons with
    | [] => (false, m)
    | _ :: _ =>
      let box : InteractiveMessageBox :=
        { mMessage := message, mButtons := buttons,
          mButtonPressed := -1, mMarkedToDelete := false }
      (true, { m with mInterMessageBoxe := some box })

/-- Modelled from the spec: `clear()`, body in `messagebox.cpp`. "Unconditionally
destroys all StaticMessages and the InteractiveMessage (if any) regardless of timers
or pending button selection"; "an unread `lastPressedButton` survives `clear()`". -/
def MessageBoxManager.clear (m : MessageBoxManager) : MessageBoxManager :=
  { m with mMessageBoxes := [], mInterMessageBoxe := none, mStaticMessageBox := none }

end MWGui

namespace OpenMW

/-! ## `main.cpp`: machine integers and strings -/

/-- A `std::string`. -/
abbrev Str := List Char

/-- The constant `std::string::npos`, the largest `std::size_t`. -/
def npos : Nat := 2 ^ 64 - 1

/-- The conversion of a `std::size_t` to `int`, as in `int sep = it->find(",")` and
`(int)it->length()`: the value modulo `2 ^ 32`, read as two's complement. -/
def toInt (n : Nat) : Int :=
  if n % 2 ^ 32 < 2 ^ 31 then ((n % 2 ^ 32 : Nat) : Int)
  else ((n % 2 ^ 32 : Nat) : Int) - 2 ^ 32

/-- The search of `std::string::find` for a single character from position `pos`
on, over the characters that remain. -/
def findFrom (c : Char) : Str → Nat → Nat
  | [], _ => npos
  | x :: rest, pos => if x = c then pos else findFrom c rest (pos + 1)

/-- The call `s.find(",")` of `std::string`: the position of the first occurrence,
or `npos` when there is none. -/
def find (s : Str) (c : Char) : Nat := findFrom c s 0

/-- The call `s.substr(pos, n)` of `std::string`, for `pos` within the string (the
two calls of `validate` are: see `substr_in_range`). -/
def substr (s : Str) (pos : Nat) (n : Nat) : Str := (s.drop pos).take n

/-! ## `main.cpp`: `FallbackMap` and `validate` -/

/-- The member `find` of `std::map<std::string,std::string>`: the value stored
under the key, or nothing where the source gets `end()`. -/
def mapFind (m : List (Str × Str)) (key : Str) : Option Str :=
  match m with
  | [] => none
  | (k, v) :: rest => if k = key then some v else mapFind rest key

/-- The member `insert` of `std::map<std::string,std::string>`: a pair whose key is
already present is not inserted. The order of iteration is not represented. -/
def mapInsert (m : List (Str × Str)) (key value : Str) : List (Str × Str) :=
  match mapFind m key with
  | some _ => m
  | none => m ++ [(key, value)]

/-- The struct `FallbackMap`, `main.cpp` lines 50-52. -/
structure FallbackMap where
  mMap : List (Str × Str)
  deriving DecidableEq, Repr

/-- The local `sep` of `validate`, line 66: `int sep = it->find(",")`. -/
def validate.sep (it : Str) : Int := toInt (find it ',')

/-- The test of line 67: `sep < 1 || sep == (int)it->length()-1`. The subtraction is
that of the integers: it leaves the range of `int` only for a length that converts to
the least `int`, where the source has no defined value either. -/
def validate.invalid (it : Str) : Bool :=
  decide (validate.sep it < 1) || decide (validate.sep it = toInt it.length - 1)

/-- The local `key` of `validate`, line 74: `it->substr(0,sep)`. -/
def validate.key (it : Str) : Str := substr it 0 (validate.sep it).toNat

/-- The local `value` of `validate`, line 75: `it->substr(sep+1)`. -/
def validate.value (it : Str) : Str := substr it (validate.sep it + 1).toNat npos

/-- How a call of `validate` ends: it returns, or it throws
`boost::program_options::validation_error`. Either way `v` holds a map. -/
inductive Validated where
  | returned (map : FallbackMap)
  | validation_error (map : FallbackMap)
  deriving DecidableEq, Repr

/-- The loop of `validate`, `main.cpp` lines 64-81, over the tokens that remain. -/
def validate.loop (map : FallbackMap) : List Str → Validated
  | [] => Validated.returned map
  | it :: rest =>
    if validate.invalid it then
      Validated.validation_error map
    else
      let key := validate.key it
      let value := validate.value it
      if mapFind map.mMap key = none then
        validate.loop { mMap := mapInsert map.mMap key value } rest
      else
        validate.loop map rest

/-- The function `validate`, `main.cpp` lines 54-82. The `boost::any` argument `v` is
either empty or holds a `FallbackMap`. -/
def validate (v : Option FallbackMap) (tokens : List Str) : Validated :=
  let map : FallbackMap :=
    match v with
    | none => { mMap := [] }
    | some map => map
  validate.loop map tokens

/-- Whether a call of `validate` threw. -/
def Validated.threw : Validated → Bool
  | Validated.returned _ => false
  | Validated.validation_error _ => true

/-- The map that `v` holds when a call of `validate` ends. -/
def Validated.map : Validated → FallbackMap
  | Validated.returned map => map
  | Validated.validation_error map => map

/-- The position of the first comma of a token, if it has one. -/
def firstComma : Str → Option Nat
  | [] => none
  | x :: rest => if x = ',' then some 0 else (firstComma rest).map (· + 1)

/-- A token that has no comma, or whose first comma is its first or its last
character. -/
def malformed (t : Str) : Prop :=
  match firstComma t with
  | none => True
  | some p => p = 0 ∨ p + 1 = t.length

instance (t : Str) : Decidable (malformed t) := by
  unfold malformed
  cases firstComma t <;> infer_instance

/-- The first token of a list whose key, as `validate` extracts it, is `key`. -/
def firstWithKey (key : Str) : List Str → Option Str
  | [] => none
  | t :: rest => if validate.key t = key then some t else firstWithKey key rest

/-! ## `main.cpp`: `parseOptions` -/

/-- The `boost::program_options::variables_map` of `parseOptions` once the command
line is stored in it (lines 165-172): one field per option of lines 102-163. An
option without a value (`help`, `version`, `no-grab`) is held as whether
`variables.count` of it is non-zero. -/
structure VariablesMap where
  help : Bool
  version : Bool
  data : List String
  data_local : String
  fallback_archive : List String
  resources : String
  start : String
  content : List String
  no_sound : Bool
  script_verbose : Bool
  script_all : Bool
  script_console : Bool
  script_run : String
  script_warn : Int
  skip_menu : Bool
  fs_strict : Bool
  encoding : String
  fallback : FallbackMap
  no_grab : Bool
  activate_dist : Int
  deriving DecidableEq, Repr

/-- What `parseOptions` uses and the two files do not define: the rendering of the
option descriptions, the constant `OPENMW_VERSION`, `Files::ConfigurationManager` and
`ToUTF8`. A collaborator that may throw gives nothing when it throws. -/
structure Collaborators where
  desc : String
  OPENMW_VERSION : String
  readConfiguration : VariablesMap → Option VariablesMap
  processPaths : List String → Option (List String)
  encodingUsingMessage : String → String
  calculateEncoding : String → Option Nat

/-- A call that `parseOptions` makes: a line written to `std::cout`, a member of the
configuration manager, or a setter of `OMW::Engine`. -/
inductive Call where
  | cout (line : String)
  | readConfiguration
  | processPaths (dataDirs : List String)
  | setGrabMouse (grab : Bool)
  | setEncoding (encoding : Nat)
  | enableFSStrict (strict : Bool)
  | setDataDirs (dataDirs : List String)
  | addArchive (archive : String)
  | setResourceDir (dir : String)
  | addContentFile (file : String)
  | setCell (cell : String)
  | setSkipMenu (skip : Bool)
  | setSoundUsage (sound : Bool)
  | setScriptsVerbosity (verbose : Bool)
  | setCompileAll (all : Bool)
  | setFallbackValues (map : List (Str × Str))
  | setScriptConsoleMode (console : Bool)
  | setStartupScript (script : String)
  | setActivationDistanceOverride (distance : Int)
  | setWarningsMode (mode : Int)
  deriving DecidableEq, Repr

/-- A call that writes to `std::cout`, as opposed to a configuration read or an
engine setter. -/
def Call.isCout : Call → Bool
  | Call.cout _ => true
  | _ => false

/-- The function `parseOptions`, `main.cpp` lines 94-253, from line 174 on: the calls
made, in order, and the value returned (nothing when a collaborator threw). The
local `variables` is `vars` here. -/
def parseOptions (env : Collaborators) (vars : VariablesMap) :
    List Call × Option Bool :=
  let run := true
  let (calls, run) :=
    if vars.help then ([Call.cout env.desc], false) else ([], run)
  let (calls, run) :=
    if vars.version then
      (calls ++ [Call.cout ("OpenMW version " ++ env.OPENMW_VERSION)], false)
    else (calls, run)
  if !run then
    (calls, some false)
  else
    let calls := calls ++ [Call.readConfiguration]
    match env.readConfiguration vars with
    | none => (calls, none)
    | some vars =>
      let calls := calls ++ [Call.setGrabMouse (!vars.no_grab)]
      let encoding := vars.encoding
      let calls := calls ++ [Call.cout (env.encodingUsingMessage encoding)]
      match env.calculateEncoding encoding with
      | none => (calls, none)
      | some fromType =>
        let calls := calls ++ [Call.setEncoding fromType]
        let calls := calls ++ [Call.enableFSStrict vars.fs_strict]
        let dataDirs := vars.data
        let dataLocal := vars.data_local
        let dataDirs := if dataLocal ≠ "" then dataDirs ++ [dataLocal] else dataDirs
        let calls := calls ++ [Call.processPaths dataDirs]
        match env.processPaths dataDirs with
        | none => (calls, none)
        | some dataDirs =>
          let calls := calls ++ [Call.setDataDirs dataDirs]
          let archives := vars.fallback_archive
          let calls := calls ++ archives.map Call.addArchive
          let calls := calls ++ [Call.setResourceDir vars.resources]
          let content := vars.content
          if content.isEmpty then
            (calls ++ [Call.cout
              "No content file given (esm/esp, nor omwgame/omwaddon). Aborting..."],
             some false)
          else
            let calls := calls ++ content.map Call.addContentFile
            let calls := calls ++
              [ Call.setCell vars.start,
                Call.setSkipMenu vars.skip_menu,
                Call.setSoundUsage (!vars.no_sound),
                Call.setScriptsVerbosity vars.script_verbose,
                Call.setCompileAll vars.script_all,
                Call.setFallbackValues vars.fallback.mMap,
                Call.setScriptConsoleMode vars.script_console,
                Call.setStartupScript vars.script_run,
                Call.setActivationDistanceOverride vars.activate_dist,
                Call.setWarningsMode vars.script_warn ]
            (calls, some true)

/-- The option values that `parseOptions` declares as defaults, lines 102-163, with
none of `help`, `version` and `no-grab` given. -/
def VariablesMap.defaults : VariablesMap :=
  { help := false
    version := false
    data := []
    data_local := ""
    fallback_archive := []
    resources := "resources"
    start := ""
    content := []
    no_sound := false
    script_verbose := false
    script_all := false
    script_console := false
    script_run := ""
    script_warn := 1
    skip_menu := false
    fs_strict := false
    encoding := "win1252"
    fallback := { mMap := [] }
    no_grab := false
    activate_dist := -1 }

/-- Collaborators for examples: no configuration file adds anything, paths are left
as they are, every encoding is known, and nothing throws. -/
def Collaborators.plain : Collaborators :=
  { desc := "Allowed options"
    OPENMW_VERSION := "0.0.0"
    readConfiguration := fun vars => some vars
    processPaths := fun dataDirs => some dataDirs
    encodingUsingMessage := fun encoding => encoding
    calculateEncoding := fun _ => some 0 }

end OpenMW

/-! # Theorems -/

namespace MWGui

/-! ## The button-press channel -/

theorem EventHandle_Int.fire_eq_map (d : EventHandle_Int) (a : Int) :
    EventHandle_Int.fire d a = d.map (fun s => (s, a)) := by
  induction d with
  | nil => rfl
  | cons s rest ih => simp [EventHandle_Int.fire, ih]

theorem EventHandle_Int.count_fire (d : EventHandle_Int) (a : Int) (s : Subscriber) :
    (EventHandle_Int.fire d a).count (s, a) = d.count s := by
  induction d with
  | nil => rfl
  | cons x rest ih =>
    by_cases hx : x = s
    · subst hx
      simp [EventHandle_Int.fire, ih]
    · have hne : ((x, a) == (s, a)) = false := by
        simp [hx]
      have hne2 : (x == s) = false := by simp [hx]
      simp [EventHandle_Int.fire, List.count_cons, ih, hne, hne2]

theorem EventHandle_Int.snd_of_mem_fire (d : EventHandle_Int) (a : Int)
    (call : Subscriber × Int) (h : call ∈ EventHandle_Int.fire d a) : call.2 = a := by
  rw [EventHandle_Int.fire_eq_map] at h
  obtain ⟨s, _, rfl⟩ := List.mem_map.mp h
  rfl

/-- C1: `onButtonPressed(b)` calls the registered subscribers in order, each call with
argument `b`, a subscriber as many times as it is registered (once when registered
once) and never with another argument; afterwards no subscriber is registered, and
a second `onButtonPressed` makes no call at all. -/
theorem onButtonPressed_single_shot (m : MessageBoxManager) (b : Int) :
    (m.onButtonPressed b).1 = m.eventButtonPressed.map (fun s => (s, b)) ∧
    (∀ s : Subscriber,
      (m.onButtonPressed b).1.count (s, b) = m.eventButtonPressed.count s) ∧
    (∀ call ∈ (m.onButtonPressed b).1, call.2 = b) ∧
    (m.onButtonPressed b).2.eventButtonPressed = [] ∧
    (∀ b2 : Int, ((m.onButtonPressed b).2.onButtonPressed b2).1 = []) := by
  refine ⟨?_, ?_, ?_, rfl, fun _ => rfl⟩
  · exact EventHandle_Int.fire_eq_map _ _
  · exact fun s => EventHandle_Int.count_fire _ _ s
  · exact fun call h => EventHandle_Int.snd_of_mem_fire _ _ call h

theorem onButtonPressed_single_shot_witness :
    (MessageBoxManager.onButtonPressed
      { eventButtonPressed := [3, 5], mMessageBoxes := [], mInterMessageBoxe := none,
        mStaticMessageBox := none, mMessageBoxSpeed := CFloat.one, mLastButtonPressed := -1 }
      1).1 = [(3, 1), (5, 1)] ∧
    ((5, 1) : Subscriber × Int).2 = 1 :=
  ⟨(onButtonPressed_single_shot
      { eventButtonPressed := [3, 5], mMessageBoxes := [], mInterMessageBoxe := none,
        mStaticMessageBox := none, mMessageBoxSpeed := CFloat.one, mLastButtonPressed := -1 } 1).1,
   (onButtonPressed_single_shot
      { eventButtonPressed := [3, 5], mMessageBoxes := [], mInterMessageBoxe := none,
        mStaticMessageBox := none, mMessageBoxSpeed := CFloat.one, mLastButtonPressed := -1 }
      1).2.2.1 (5, 1) (by decide)⟩

/-- C4, as the claim states it, fails: on a manager whose `mLastButtonPressed` is `-1`
and that has one subscriber, `onButtonPressed(2)` leaves `mLastButtonPressed` at `-1`,
and the `readPressedButton()` that follows returns `-1`, not `2`. -/
theorem onButtonPressed_does_not_store_button :
    (MessageBoxManager.onButtonPressed
      { eventButtonPressed := [7], mMessageBoxes := [], mInterMessageBoxe := none,
        mStaticMessageBox := none, mMessageBoxSpeed := CFloat.one, mLastButtonPressed := -1 }
      2).2.mLastButtonPressed = -1 ∧
    (MessageBoxManager.onButtonPressed
      { eventButtonPressed := [7], mMessageBoxes := [], mInterMessageBoxe := none,
        mStaticMessageBox := none, mMessageBoxSpeed := CFloat.one, mLastButtonPressed := -1 }
      2).2.readPressedButton.1 ≠ 2 := by
  constructor
  · rfl
  · decide

/-- C4, amended: `onButtonPressed(b)` changes nothing of the manager but the
subscriber list; in particular `mLastButtonPressed` keeps its value, and a
`readPressedButton()` made immediately afterwards returns the value that
`mLastButtonPressed` had before the press. -/
theorem onButtonPressed_keeps_last_button (m : MessageBoxManager) (b : Int) :
    (m.onButtonPressed b).2 = { m with eventButtonPressed := [] } ∧
    (m.onButtonPressed b).2.mLastButtonPressed = m.mLastButtonPressed ∧
    (m.onButtonPressed b).2.readPressedButton.1 = m.mLastButtonPressed :=
  ⟨rfl, rfl, rfl⟩

/-! ## The interactive box -/

/-- C2: while an interactive box exists, `createInteractiveMessageBox` returns false
and the manager is unchanged; with no interactive box and a non-empty button list it
returns true and `isInteractiveMessageBox()` is true afterwards. -/
theorem createInteractiveMessageBox_at_most_one (m : MessageBoxManager)
    (message : String) (buttons : List String) :
    (m.isInteractiveMessageBox = true →
      m.createInteractiveMessageBox message buttons = (false, m)) ∧
    (m.isInteractiveMessageBox = false → buttons ≠ [] →
      (m.createInteractiveMessageBox message buttons).1 = true ∧
      (m.createInteractiveMessageBox message buttons).2.isInteractiveMessageBox = true) := by
  constructor
  · intro h
    unfold MessageBoxManager.isInteractiveMessageBox at h
    unfold MessageBoxManager.createInteractiveMessageBox
    cases hbox : m.mInterMessageBoxe with
    | none => simp [hbox] at h
    | some box => rfl
  · intro h hbuttons
    unfold MessageBoxManager.isInteractiveMessageBox at h
    unfold MessageBoxManager.createInteractiveMessageBox
    cases hbox : m.mInterMessageBoxe with
    | some box => simp [hbox] at h
    | none =>
      cases buttons with
      | nil => exact absurd rfl hbuttons
      | cons first rest => exact ⟨rfl, rfl⟩

theorem createInteractiveMessageBox_at_most_one_witness :
    (MessageBoxManager.createInteractiveMessageBox
        { eventButtonPressed := [], mMessageBoxes := [],
          mInterMessageBoxe := some { mMessage := "Rest?", mButtons := ["Yes", "No"],
                                      mButtonPressed := -1, mMarkedToDelete := false },
          mStaticMessageBox := none, mMessageBoxSpeed := CFloat.one, mLastButtonPressed := 3 }
        "Quit?" ["OK"]).1 = false ∧
    ((MessageBoxManager.new CFloat.one).createInteractiveMessageBox "Quit?" ["OK"]).1 = true ∧
    ((MessageBoxManager.new CFloat.one).createInteractiveMessageBox "Quit?"
        ["OK"]).2.isInteractiveMessageBox = true :=
  ⟨congrArg Prod.fst
      ((createInteractiveMessageBox_at_most_one
        { eventButtonPressed := [], mMessageBoxes := [],
          mInterMessageBoxe := some { mMessage := "Rest?", mButtons := ["Yes", "No"],
                                      mButtonPressed := -1, mMarkedToDelete := false },
          mStaticMessageBox := none, mMessageBoxSpeed := CFloat.one, mLastButtonPressed := 3 }
        "Quit?" ["OK"]).1 rfl),
   (createInteractiveMessageBox_at_most_one (MessageBoxManager.new CFloat.one) "Quit?" ["OK"]).2
      rfl (by simp)⟩

/-- C7: with an empty button list `createInteractiveMessageBox` returns false and the
manager is unchanged, whatever the state and the message. -/
theorem createInteractiveMessageBox_no_buttons (m : MessageBoxManager) (message : String) :
    m.createInteractiveMessageBox message [] = (false, m) := by
  unfold MessageBoxManager.createInteractiveMessageBox
  cases m.mInterMessageBoxe <;> rfl

/-! ## The pressed button -/

/-- C3: `readPressedButton()` returns `mLastButtonPressed` and leaves it at `-1`, so
that a second call returns `-1`; on a manager just constructed it returns `-1`. -/
theorem readPressedButton_read_and_clear (m : MessageBoxManager) (timePerChar : CFloat) :
    m.readPressedButton.1 = m.mLastButtonPressed ∧
    m.readPressedButton.2.mLastButtonPressed = -1 ∧
    m.readPressedButton.2.readPressedButton.1 = -1 ∧
    (MessageBoxManager.new timePerChar).readPressedButton.1 = -1 :=
  ⟨rfl, rfl, rfl, rfl⟩

/-! ## `clear` -/

/-- C6: after `clear()` the static queue is empty and `isInteractiveMessageBox()` is
false, whatever the boxes were, and `mLastButtonPressed` is what it was. -/
theorem clear_removes_all_boxes (m : MessageBoxManager) :
    m.clear.mMessageBoxes = [] ∧
    m.clear.isInteractiveMessageBox = false ∧
    m.clear.mLastButtonPressed = m.mLastButtonPressed :=
  ⟨rfl, rfl, rfl⟩

end MWGui

namespace OpenMW

/-! ## Machine integers and `find` -/

theorem toInt_of_lt {n : Nat} (h : n < 2 ^ 31) : toInt n = (n : Int) := by
  have h32 : n % 2 ^ 32 = n := Nat.mod_eq_of_lt (by omega)
  unfold toInt
  rw [h32, if_pos h]

theorem toInt_npos : toInt npos = -1 := by
  decide

theorem findFrom_eq (s : Str) : ∀ pos : Nat,
    findFrom ',' s pos =
      match firstComma s with
      | none => npos
      | some p => pos + p := by
  induction s with
  | nil => intro pos; rfl
  | cons x rest ih =>
    intro pos
    by_cases hx : x = ','
    · simp [findFrom, firstComma, hx]
    · simp only [findFrom, firstComma, hx, if_false]
      rw [ih (pos + 1)]
      cases firstComma rest with
      | none => rfl
      | some p =>
        show pos + 1 + p = pos + (p + 1)
        omega

theorem find_eq (s : Str) :
    find s ',' = match firstComma s with
      | none => npos
      | some p => p := by
  unfold find
  rw [findFrom_eq s 0]
  cases firstComma s with
  | none => rfl
  | some p => simp

theorem firstComma_split (s : Str) : ∀ p : Nat, firstComma s = some p →
    p < s.length ∧ s.take p ++ ',' :: s.drop (p + 1) = s ∧ ',' ∉ s.take p := by
  induction s with
  | nil => intro p h; simp [firstComma] at h
  | cons x rest ih =>
    intro p h
    by_cases hx : x = ','
    · simp [firstComma, hx] at h
      subst h
      simp [hx]
    · simp only [firstComma, hx, if_false] at h
      cases hrest : firstComma rest with
      | none => simp [hrest] at h
      | some q =>
        simp only [hrest, Option.map_some', Option.some.injEq] at h
        subst h
        obtain ⟨h1, h2, h3⟩ := ih q hrest
        refine ⟨by simp; omega, ?_, ?_⟩
        · simp only [List.take_succ_cons, List.drop_succ_cons, List.cons_append, h2]
        · simp only [List.take_succ_cons, List.mem_cons, not_or]
          exact ⟨fun h => hx h.symm, h3⟩

theorem firstComma_replicate (n : Nat) (rest : Str) :
    firstComma (List.replicate n 'a' ++ ',' :: rest) = some n := by
  induction n with
  | zero => simp [firstComma]
  | succ k ih =>
    rw [List.replicate_succ, List.cons_append]
    unfold firstComma
    rw [if_neg (by decide), ih]
    rfl

/-! ## One token -/

theorem sep_of_firstComma_none {t : Str} (h : firstComma t = none) :
    validate.sep t = -1 := by
  unfold validate.sep
  rw [find_eq, h]
  exact toInt_npos

theorem sep_of_firstComma_some {t : Str} {p : Nat} (hlen : t.length < 2 ^ 31)
    (h : firstComma t = some p) : validate.sep t = (p : Int) := by
  unfold validate.sep
  rw [find_eq, h]
  have hp := (firstComma_split t p h).1
  show toInt p = (p : Int)
  exact toInt_of_lt (by omega)

theorem invalid_iff_malformed (t : Str) (hlen : t.length < 2 ^ 31) :
    validate.invalid t = true ↔ malformed t := by
  unfold validate.invalid malformed
  cases h : firstComma t with
  | none =>
    rw [sep_of_firstComma_none h]
    simp
  | some p =>
    rw [sep_of_firstComma_some hlen h, toInt_of_lt hlen]
    simp only [Bool.or_eq_true, decide_eq_true_eq]
    constructor
    · rintro (h1 | h1) <;> omega
    · rintro (h1 | h1) <;> omega

theorem split_of_valid (t : Str) (hlen : t.length < 2 ^ 31)
    (hvalid : validate.invalid t = false) :
    validate.key t ≠ [] ∧ validate.value t ≠ [] ∧
      validate.key t ++ ',' :: validate.value t = t ∧ ',' ∉ validate.key t := by
  have hmal : ¬ malformed t := by
    intro hm
    rw [(invalid_iff_malformed t hlen).mpr hm] at hvalid
    exact Bool.noConfusion hvalid
  cases h : firstComma t with
  | none => exact absurd (by simp [malformed, h]) hmal
  | some p =>
    have hp0 : p ≠ 0 ∧ p + 1 ≠ t.length := by
      simp only [malformed, h, not_or] at hmal
      exact hmal
    obtain ⟨hp, hsplit, hnot⟩ := firstComma_split t p h
    have hkey : validate.key t = t.take p := by
      unfold validate.key
      rw [sep_of_firstComma_some hlen h]
      simp [substr]
    have hvalue : validate.value t = t.drop (p + 1) := by
      unfold validate.value
      rw [sep_of_firstComma_some hlen h]
      have hto : ((p : Int) + 1).toNat = p + 1 := by omega
      rw [hto]
      unfold substr
      apply List.take_of_length_le
      rw [List.length_drop]
      unfold npos
      omega
    rw [hkey, hvalue]
    refine ⟨?_, ?_, hsplit, hnot⟩
    · intro h0
      have := congrArg List.length h0
      rw [List.length_take, List.length_nil] at this
      omega
    · intro h0
      have := congrArg List.length h0
      rw [List.length_drop, List.length_nil] at this
      omega

theorem toInt_le (n : Nat) : toInt n ≤ (n : Int) := by
  unfold toInt
  have hmod : n % 2 ^ 32 ≤ n := Nat.mod_le n _
  split <;> omega

theorem substr_in_range (t : Str) (hvalid : validate.invalid t = false) :
    (validate.sep t).toNat ≤ t.length ∧ (validate.sep t + 1).toNat ≤ t.length := by
  unfold validate.invalid at hvalid
  simp only [Bool.or_eq_false_iff, decide_eq_false_iff_not, not_lt] at hvalid
  have hsep := hvalid.1
  cases h : firstComma t with
  | none =>
    rw [sep_of_firstComma_none h] at hsep
    omega
  | some p =>
    have hp := (firstComma_split t p h).1
    have hle : validate.sep t ≤ (p : Int) := by
      unfold validate.sep
      rw [find_eq, h]
      exact toInt_le p
    omega

/-! ## The loop of `validate` -/

theorem loop_threw (tokens : List Str) : ∀ map : FallbackMap,
    (validate.loop map tokens).threw = true ↔ ∃ t ∈ tokens, validate.invalid t = true := by
  induction tokens with
  | nil => intro map; simp [validate.loop, Validated.threw]
  | cons t rest ih =>
    intro map
    unfold validate.loop
    by_cases hinv : validate.invalid t = true
    · simp [hinv, Validated.threw]
    · have hinv2 : validate.invalid t = false := by simpa using hinv
      simp only [hinv2, Bool.false_eq_true, if_false, List.mem_cons, exists_eq_or_imp,
        false_or]
      split
      · exact ih _
      · exact ih _

theorem validate_threw (v : Option FallbackMap) (tokens : List Str) :
    (validate v tokens).threw = true ↔ ∃ t ∈ tokens, validate.invalid t = true := by
  unfold validate
  exact loop_threw tokens _

theorem toInt_two_pow_31 : toInt (2 ^ 31) = -2147483648 := by
  decide

theorem long_token_invalid (n : Nat) (hn : n = 2 ^ 31) (rest : Str) :
    validate.invalid (List.replicate n 'a' ++ ',' :: rest) = true := by
  have hsep : validate.sep (List.replicate n 'a' ++ ',' :: rest) = -2147483648 := by
    unfold validate.sep
    rw [find_eq, firstComma_replicate n rest]
    show toInt n = -2147483648
    rw [hn]
    exact toInt_two_pow_31
  unfold validate.invalid
  rw [hsep]
  exact Bool.or_eq_true_iff.mpr (Or.inl (decide_eq_true (by norm_num)))

theorem long_token_not_malformed (n : Nat) (hn : 0 < n) (c : Char) :
    ¬ malformed (List.replicate n 'a' ++ [',', c]) := by
  unfold malformed
  rw [firstComma_replicate n [c]]
  show ¬ (n = 0 ∨ n + 1 = (List.replicate n 'a' ++ [',', c]).length)
  rw [List.length_append, List.length_replicate]
  show ¬ (n = 0 ∨ n + 1 = n + 2)
  omega

theorem long_token_throws (n : Nat) (hn : n = 2 ^ 31) :
    (validate none [List.replicate n 'a' ++ [',', 'b']]).threw = true ∧
    ¬ ∃ t ∈ [List.replicate n 'a' ++ [',', 'b']], malformed t := by
  constructor
  · rw [validate_threw]
    exact ⟨_, List.mem_singleton.mpr rfl, long_token_invalid n hn ['b']⟩
  · rintro ⟨t, ht, hmal⟩
    rw [List.mem_singleton.mp ht] at hmal
    exact long_token_not_malformed n (by rw [hn]; norm_num) 'b' hmal

/-- C9 fails on the code: the single token made of `2 ^ 31` letters `a`, a comma and
a letter `b` has a comma, and its first comma is neither at position 0 nor its last
character, yet `validate` throws on it, because line 66 narrows the position
`2 ^ 31` that `find` returns to an `int`, where it is negative. -/
theorem validate_throws_on_well_formed_long_token :
    (validate none [List.replicate (2 ^ 31) 'a' ++ [',', 'b']]).threw = true ∧
    ¬ ∃ t ∈ [List.replicate (2 ^ 31) 'a' ++ [',', 'b']], malformed t :=
  long_token_throws (2 ^ 31) rfl

/-- Where the narrowing of line 66 loses nothing, on tokens shorter than `2 ^ 31`
characters, `validate` throws if and only if some token has no comma or has its
first comma as its first or its last character; and when it does not throw, the key
and the value that it takes from a token are both non-empty, the key holds no comma,
and key, comma and value put together give the token back. -/
theorem validate_throws_iff_malformed (v : Option FallbackMap) (tokens : List Str)
    (hlen : ∀ t ∈ tokens, t.length < 2 ^ 31) :
    ((validate v tokens).threw = true ↔ ∃ t ∈ tokens, malformed t) ∧
    ((validate v tokens).threw = false →
      ∀ t ∈ tokens, validate.key t ≠ [] ∧ validate.value t ≠ [] ∧
        validate.key t ++ ',' :: validate.value t = t ∧ ',' ∉ validate.key t) := by
  constructor
  · rw [validate_threw]
    constructor
    · rintro ⟨t, ht, hinv⟩
      exact ⟨t, ht, (invalid_iff_malformed t (hlen t ht)).mp hinv⟩
    · rintro ⟨t, ht, hmal⟩
      exact ⟨t, ht, (invalid_iff_malformed t (hlen t ht)).mpr hmal⟩
  · intro hno t ht
    apply split_of_valid t (hlen t ht)
    cases hinv : validate.invalid t with
    | false => rfl
    | true =>
      have := (validate_threw v tokens).mpr ⟨t, ht, hinv⟩
      rw [hno] at this
      exact Bool.noConfusion this

theorem validate_throws_iff_malformed_example :
    ((validate none ["Fonts_Font_0,magic_cards_regular".toList, "a,b,c".toList]).threw = true ↔
      ∃ t ∈ ["Fonts_Font_0,magic_cards_regular".toList, "a,b,c".toList], malformed t) ∧
    ((validate none ["Fonts_Font_0,magic_cards_regular".toList, "a,b,c".toList]).threw = false →
      ∀ t ∈ ["Fonts_Font_0,magic_cards_regular".toList, "a,b,c".toList],
        validate.key t ≠ [] ∧ validate.value t ≠ [] ∧
        validate.key t ++ ',' :: validate.value t = t ∧ ',' ∉ validate.key t) :=
  validate_throws_iff_malformed none
    ["Fonts_Font_0,magic_cards_regular".toList, "a,b,c".toList] (by decide)

/-! ## The map that `validate` builds -/

theorem mapFind_append (m : List (Str × Str)) (k key value : Str) :
    mapFind (m ++ [(key, value)]) k =
      match mapFind m k with
      | some w => some w
      | none => if key = k then some value else none := by
  induction m with
  | nil => simp [mapFind]
  | cons e rest ih =>
    obtain ⟨k1, v1⟩ := e
    by_cases h : k1 = k
    · simp [mapFind, h]
    · simp only [List.cons_append, mapFind, h, if_false]
      exact ih

theorem mapFind_isSome_iff (m : List (Str × Str)) (k : Str) :
    (mapFind m k).isSome = true ↔ k ∈ m.map Prod.fst := by
  induction m with
  | nil => simp [mapFind]
  | cons e rest ih =>
    obtain ⟨k1, v1⟩ := e
    by_cases h : k1 = k
    · simp [mapFind, h]
    · have h2 : ¬ k = k1 := fun h3 => h h3.symm
      simp only [mapFind, h, if_false, List.map_cons, List.mem_cons, h2, false_or]
      exact ih

theorem firstWithKey_isSome_iff (k : Str) (tokens : List Str) :
    (firstWithKey k tokens).isSome = true ↔ ∃ t ∈ tokens, validate.key t = k := by
  induction tokens with
  | nil => simp [firstWithKey]
  | cons t rest ih =>
    by_cases h : validate.key t = k
    · simp [firstWithKey, h]
    · simp only [firstWithKey, h, if_false, List.mem_cons, exists_eq_or_imp, false_or]
      exact ih

theorem loop_mapFind (tokens : List Str) : ∀ (map result : FallbackMap),
    validate.loop map tokens = Validated.returned result → ∀ k : Str,
    mapFind result.mMap k =
      match mapFind map.mMap k with
      | some w => some w
      | none => (firstWithKey k tokens).map validate.value := by
  induction tokens with
  | nil =>
    intro map result h k
    simp only [validate.loop, Validated.returned.injEq] at h
    subst h
    cases mapFind map.mMap k <;> rfl
  | cons t rest ih =>
    intro map result h k
    unfold validate.loop at h
    cases hinv : validate.invalid t with
    | true => simp [hinv] at h
    | false =>
      simp only [hinv, Bool.false_eq_true, if_false] at h
      cases hfind : mapFind map.mMap (validate.key t) with
      | none =>
        simp only [hfind, if_true] at h
        rw [ih _ result h k]
        simp only [mapInsert, hfind]
        rw [mapFind_append]
        by_cases hk : validate.key t = k
        · subst hk
          simp [hfind, firstWithKey]
        · cases hmk : mapFind map.mMap k with
          | none => simp [hk, firstWithKey]
          | some w => simp
      | some w0 =>
        simp only [hfind, reduceCtorEq, if_false] at h
        rw [ih map result h k]
        by_cases hk : validate.key t = k
        · subst hk
          simp [hfind]
        · cases hmk : mapFind map.mMap k with
          | none => simp [hk, firstWithKey]
          | some w => simp

theorem loop_returned_of_not_threw (map : FallbackMap) (tokens : List Str)
    (h : (validate.loop map tokens).threw = false) :
    validate.loop map tokens = Validated.returned (validate.loop map tokens).map := by
  cases hres : validate.loop map tokens with
  | returned result => rfl
  | validation_error result => simp [hres, Validated.threw] at h

/-- C10: when `validate` does not throw, every key that the map held before keeps its
value; a key that the map did not hold is bound afterwards to the value of the first
token of the list that has this key (and to nothing when no token has it); and the
keys of the map afterwards are the keys it held before together with the keys of the
tokens. The map before is the one that `v` holds, the empty one when `v` is empty. -/
theorem validate_first_occurrence_wins (v : Option FallbackMap) (tokens : List Str)
    (hreturns : (validate v tokens).threw = false) :
    (∀ k w : Str, mapFind (v.getD { mMap := [] }).mMap k = some w →
      mapFind (validate v tokens).map.mMap k = some w) ∧
    (∀ k : Str, mapFind (v.getD { mMap := [] }).mMap k = none →
      mapFind (validate v tokens).map.mMap k =
        (firstWithKey k tokens).map validate.value) ∧
    (∀ k : Str, k ∈ (validate v tokens).map.mMap.map Prod.fst ↔
      k ∈ (v.getD { mMap := [] }).mMap.map Prod.fst ∨
        ∃ t ∈ tokens, validate.key t = k) := by
  have hstart : validate v tokens = validate.loop (v.getD { mMap := [] }) tokens := by
    unfold validate
    cases v <;> rfl
  rw [hstart] at hreturns ⊢
  have hfind := loop_mapFind tokens (v.getD { mMap := [] }) _
    (loop_returned_of_not_threw _ tokens hreturns)
  refine ⟨?_, ?_, ?_⟩
  · intro k w hk
    rw [hfind k, hk]
  · intro k hk
    rw [hfind k, hk]
  · intro k
    rw [← mapFind_isSome_iff, ← mapFind_isSome_iff, ← firstWithKey_isSome_iff, hfind k]
    cases hk : mapFind (v.getD { mMap := [] }).mMap k with
    | none => simp
    | some w => simp

theorem validate_first_occurrence_wins_witness :
    (validate (some { mMap := [("a".toList, "1".toList)] })
      ["a,2".toList, "b,3".toList, "b,4".toList]).threw = false ∧
    (validate (some { mMap := [("a".toList, "1".toList)] })
      ["a,2".toList, "b,3".toList, "b,4".toList]).map.mMap =
        [("a".toList, "1".toList), ("b".toList, "3".toList)] ∧
    (∀ k : Str, k ∈ (validate (some { mMap := [("a".toList, "1".toList)] })
        ["a,2".toList, "b,3".toList, "b,4".toList]).map.mMap.map Prod.fst ↔
      k ∈ (Option.getD (some { mMap := [("a".toList, "1".toList)] })
          ({ mMap := [] } : FallbackMap)).mMap.map Prod.fst ∨
        ∃ t ∈ ["a,2".toList, "b,3".toList, "b,4".toList], validate.key t = k) :=
  ⟨by decide, by decide,
   (validate_first_occurrence_wins (some { mMap := [("a".toList, "1".toList)] })
      ["a,2".toList, "b,3".toList, "b,4".toList] (by decide)).2.2⟩

/-! ## `parseOptions` -/

/-- C8: when no collaborator throws, `parseOptions` returns false if `help` or
`version` is given, and then it has only written to `std::cout`: no configuration
was read and no engine setter was called (in this case nothing can throw and it does
return). Otherwise it returns false if the content list, as it stands after the
configuration was read, is empty and true if it is not; and it does return whenever
the configuration manager and the encoding lookup do not throw. -/
theorem parseOptions_returns (env : Collaborators) (vars : VariablesMap) :
    ((vars.help = true ∨ vars.version = true) →
      (parseOptions env vars).2 = some false ∧
      ∀ call ∈ (parseOptions env vars).1, call.isCout = true) ∧
    (vars.help = false → vars.version = false →
      ∀ r : Bool, (parseOptions env vars).2 = some r →
        ∃ vars2, env.readConfiguration vars = some vars2 ∧
          (vars2.content = [] → r = false) ∧ (vars2.content ≠ [] → r = true)) ∧
    (vars.help = false → vars.version = false →
      ∀ (vars2 : VariablesMap) (fromType : Nat) (dataDirs : List String),
        env.readConfiguration vars = some vars2 →
        env.calculateEncoding vars2.encoding = some fromType →
        env.processPaths
          (if vars2.data_local ≠ "" then vars2.data ++ [vars2.data_local]
           else vars2.data) = some dataDirs →
        (parseOptions env vars).2 = some (!vars2.content.isEmpty)) := by
  refine ⟨?_, ?_, ?_⟩
  · intro h
    unfold parseOptions
    cases hhelp : vars.help <;> cases hversion : vars.version <;>
      simp_all [Call.isCout]
  · intro hhelp hversion r hr
    unfold parseOptions at hr
    cases hcfg : env.readConfiguration vars with
    | none => simp [hhelp, hversion, hcfg] at hr
    | some vars2 =>
      refine ⟨vars2, rfl, ?_⟩
      cases henc : env.calculateEncoding vars2.encoding with
      | none =>
        simp only [hcfg, henc] at hr
        simp [hhelp, hversion] at hr
      | some fromType =>
        cases hpaths : env.processPaths
            (if vars2.data_local ≠ "" then vars2.data ++ [vars2.data_local]
             else vars2.data) with
        | none =>
          simp only [hcfg, henc, hpaths] at hr
          simp [hhelp, hversion] at hr
        | some dataDirs =>
          simp only [hcfg, henc, hpaths] at hr
          cases hcontent : vars2.content with
          | nil => simp_all
          | cons file rest => simp_all
  · intro hhelp hversion vars2 fromType dataDirs hcfg henc hpaths
    unfold parseOptions
    simp only [hhelp, hversion, hcfg, henc, hpaths]
    cases hcontent : vars2.content with
    | nil => simp
    | cons file rest => simp

theorem parseOptions_returns_witness :
    ((parseOptions Collaborators.plain { VariablesMap.defaults with help := true }).2 =
        some false ∧
      ∀ call ∈ (parseOptions Collaborators.plain
          { VariablesMap.defaults with help := true }).1, call.isCout = true) ∧
    (parseOptions Collaborators.plain
        { VariablesMap.defaults with content := ["Morrowind.esm"] }).2 = some true ∧
    (parseOptions Collaborators.plain VariablesMap.defaults).2 = some false :=
  ⟨(parseOptions_returns Collaborators.plain
      { VariablesMap.defaults with help := true }).1 (Or.inl rfl),
   (parseOptions_returns Collaborators.plain
      { VariablesMap.defaults with content := ["Morrowind.esm"] }).2.2 rfl rfl
      { VariablesMap.defaults with content := ["Morrowind.esm"] } 0 [] rfl rfl rfl,
   (parseOptions_returns Collaborators.plain VariablesMap.defaults).2.2 rfl rfl
      VariablesMap.defaults 0 [] rfl rfl rfl⟩

end OpenMW
